import Mathlib

/-!
# Verification of the option-symbol decoding and GEX aggregation pipeline

Shallow embedding of `src/main.py` (a Streamlit gamma-exposure dashboard).
Conventions used throughout:

* Python floats are modelled as exact rationals (`ℚ`); the arithmetic of the
  pipeline is plain field arithmetic, and every float literal of the source
  (`0.01`, `0.85`, `1.15`) denotes the corresponding rational.
* pandas datetimes are modelled by their day number (days since 1970-01-01,
  an `ℤ`); `datetime.today()` becomes an explicit `today : ℤ` parameter and
  `timedelta(days=365)` becomes `+ 365`.
* Vendor identifier strings are `List Char`; the three `str.extract` calls of
  `fix_option_data` are modelled by recursive leftmost-match functions that
  implement exactly the regexes `\d([A-Z])\d`, `\d[A-Z](\d+)\d\d\d` and
  `[A-Z](\d+)` (Python `re.search` semantics: leftmost starting position,
  greedy `\d+` with the trailing `\d\d\d` taken from the same digit run).
* `str.extract` puts `NaN` in a cell whose pattern did not match; the `NaN`s
  are modelled by `Option`.  `astype(int)` on a column containing `NaN`
  raises `IntCastingNaNError` and `pd.to_datetime` raises `ValueError` on an
  unparseable cell, so the batch function `fix_option_data` is `Except`-valued
  and fails the whole batch whenever one of those column conversions would
  raise.
-/

set_option maxHeartbeats 1000000

/-- ASCII decimal digit test: the regex class `\d` on the vendor's ASCII
identifiers. -/
def isDigit10 (c : Char) : Bool := 48 ≤ c.toNat && c.toNat ≤ 57

/-- Uppercase letter test: the regex class `[A-Z]`. -/
def isUpperAZ (c : Char) : Bool := 65 ≤ c.toNat && c.toNat ≤ 90

/-- Numeric value of a digit character. -/
def digVal (c : Char) : Nat := c.toNat - 48

/-- Maximal leading run of digit characters (what a greedy `\d+` consumes). -/
def digitRun : List Char → List Char
  | [] => []
  | c :: rest => if isDigit10 c then c :: digitRun rest else []

/-- Does the list start with a digit character? -/
def startsWithDigit : List Char → Bool
  | [] => false
  | c :: _ => isDigit10 c

/-- `data.option.str.extract(r"\d([A-Z])\d")` (src/main.py line 64): leftmost
occurrence of digit-letter-digit, returning the letter. -/
def extractType : List Char → Option Char
  | c1 :: c2 :: c3 :: rest =>
      if isDigit10 c1 && isUpperAZ c2 && isDigit10 c3 then some c2
      else extractType (c2 :: c3 :: rest)
  | _ => none

/-- `data.option.str.extract(r"\d[A-Z](\d+)\d\d\d")` (src/main.py line 65):
leftmost position with digit, uppercase letter, then a digit run of length at
least 4; the greedy group `(\d+)` gets the run minus its last three digits. -/
def extractStrike : List Char → Option (List Char)
  | c1 :: c2 :: rest =>
      if isDigit10 c1 && isUpperAZ c2 && decide (4 ≤ (digitRun rest).length) then
        some ((digitRun rest).take ((digitRun rest).length - 3))
      else extractStrike (c2 :: rest)
  | _ => none

/-- `data.option.str.extract(r"[A-Z](\d+)")` (src/main.py line 66): leftmost
uppercase letter followed by at least one digit; the group is the digit run. -/
def extractExpiration : List Char → Option (List Char)
  | [] => none
  | c :: rest =>
      if isUpperAZ c && startsWithDigit rest then some (digitRun rest)
      else extractExpiration rest

/-- `int(...)` of a string of digit characters (the `astype(int)` of a matched
strike group). -/
def natOfDigits (l : List Char) : Nat := l.foldl (fun a c => 10 * a + digVal c) 0

/-- Gregorian leap-year rule (as used by `datetime`). -/
def isLeapYear (y : Nat) : Bool := y % 4 == 0 && (y % 100 != 0 || y % 400 == 0)

/-- Number of days in a month (the `datetime` constructor's day validation). -/
def daysInMonth (y m : Nat) : Nat :=
  if m = 2 then (if isLeapYear y then 29 else 28)
  else if m = 4 ∨ m = 6 ∨ m = 9 ∨ m = 11 then 30 else 31

/-- `strptime`'s `%y` pivot: two-digit years 00-68 are 2000-2068, 69-99 are
1969-1999. -/
def pivotYear (yy : Nat) : Nat := if yy ≤ 68 then 2000 + yy else 1900 + yy

/-- `strptime`'s `%m` component, the regex alternation `1[0-2]|0[1-9]|[1-9]`
read greedily at the current position (the fragment without cross-component
backtracking, which coincides with the regex on the vendor's six-digit dates). -/
def parseMonth : List Char → Option (Nat × List Char)
  | [] => none
  | c1 :: rest1 =>
    if c1 = '1' then
      match rest1 with
      | c2 :: rest2 =>
          if decide ('0' ≤ c2) && decide (c2 ≤ '2') then some (10 + digVal c2, rest2)
          else some (1, rest1)
      | [] => some (1, [])
    else if decide ('2' ≤ c1) && decide (c1 ≤ '9') then some (digVal c1, rest1)
    else if c1 = '0' then
      match rest1 with
      | c2 :: rest2 =>
          if decide ('1' ≤ c2) && decide (c2 ≤ '9') then some (digVal c2, rest2)
          else none
      | [] => none
    else none

/-- `strptime`'s `%d` component, the regex alternation
`3[01]|[12]\d|0[1-9]|[1-9]` read greedily at the current position. -/
def parseDay : List Char → Option (Nat × List Char)
  | [] => none
  | c1 :: rest1 =>
    if c1 = '3' then
      match rest1 with
      | c2 :: rest2 =>
          if c2 = '0' || c2 = '1' then some (30 + digVal c2, rest2)
          else some (3, rest1)
      | [] => some (3, [])
    else if c1 = '1' || c1 = '2' then
      match rest1 with
      | c2 :: rest2 =>
          if isDigit10 c2 then some (10 * digVal c1 + digVal c2, rest2)
          else some (digVal c1, rest1)
      | [] => some (digVal c1, [])
    else if c1 = '0' then
      match rest1 with
      | c2 :: rest2 =>
          if decide ('1' ≤ c2) && decide (c2 ≤ '9') then some (digVal c2, rest2)
          else none
      | [] => none
    else if decide ('4' ≤ c1) && decide (c1 ≤ '9') then some (digVal c1, rest1)
    else none

/-- `strptime(s, "%y%m%d")` followed by the `datetime` constructor's validity
check: two digits of year, then month, then day, nothing left over, and the
day must exist in that month. -/
def parseYMD (s : List Char) : Option (Nat × Nat × Nat) :=
  match s with
  | c1 :: c2 :: rest =>
      if isDigit10 c1 && isDigit10 c2 then
        let year := pivotYear (10 * digVal c1 + digVal c2)
        match parseMonth rest with
        | some (m, rest2) =>
          match parseDay rest2 with
          | some (d, rest3) =>
              if rest3 = [] ∧ 1 ≤ d ∧ d ≤ daysInMonth year m then some (year, m, d)
              else none
          | none => none
        | none => none
      else none
  | _ => none

/-- Day number (days since 1970-01-01) of a Gregorian date; the standard
`days_from_civil` computation, valid for the parsed years 1969-2068. -/
def dayNumber (y m d : Nat) : ℤ :=
  let yAdj := if m ≤ 2 then y - 1 else y
  let era := yAdj / 400
  let yoe := yAdj % 400
  let mp := if 2 < m then m - 3 else m + 9
  let doy := (153 * mp + 2) / 5 + (d - 1)
  let doe := yoe * 365 + yoe / 4 - yoe / 100 + doy
  (era * 146097 + doe : ℤ) - 719468

/-- `pd.to_datetime(s, format="%y%m%d")` of one cell, as a day number. -/
def toDatetime (s : List Char) : Option ℤ :=
  (parseYMD s).map (fun t => dayNumber t.1 t.2.1 t.2.2)

/-- Inverse of `dayNumber` (`civil_from_days`), used to render a datetime
with `strftime`. -/
def civilFromDays (z : ℤ) : Nat × Nat × Nat :=
  let n := (z + 719468).toNat
  let era := n / 146097
  let doe := n % 146097
  let yoe := (doe - doe / 1460 + doe / 36524 - doe / 146096) / 365
  let y := yoe + era * 400
  let doy := doe - (365 * yoe + yoe / 4 - yoe / 100)
  let mp := (5 * doy + 2) / 153
  let d := doy - (153 * mp + 2) / 5 + 1
  let m := if mp < 10 then mp + 3 else mp - 9
  (if m ≤ 2 then y + 1 else y, m, d)

/-- Digit character of a value below ten. -/
def dig : Nat → Char
  | 0 => '0' | 1 => '1' | 2 => '2' | 3 => '3' | 4 => '4'
  | 5 => '5' | 6 => '6' | 7 => '7' | 8 => '8' | 9 => '9' | _ => '*'

/-- Two-digit zero-padded rendering. -/
def pad2 (n : Nat) : List Char := [dig (n / 10 % 10), dig (n % 10)]

/-- Four-digit zero-padded rendering. -/
def pad4 (n : Nat) : List Char :=
  [dig (n / 1000 % 10), dig (n / 100 % 10), dig (n / 10 % 10), dig (n % 10)]

/-- `dt.strftime("%Y-%m-%d")` on a day number (src/main.py line 186).  A
Python string is its sequence of characters, kept here as `List Char`. -/
def fmtDate (z : ℤ) : List Char :=
  let c := civilFromDays z
  pad4 c.1 ++ '-' :: pad2 c.2.1 ++ '-' :: pad2 c.2.2

/-- Three-digit zero-padded rendering. -/
def pad3 (n : Nat) : List Char := [dig (n / 100 % 10), dig (n / 10 % 10), dig (n % 10)]

/-- Five-digit zero-padded rendering. -/
def pad5 (n : Nat) : List Char :=
  [dig (n / 10000 % 10), dig (n / 1000 % 10), dig (n / 100 % 10), dig (n / 10 % 10),
    dig (n % 10)]

/-- A synthetic identifier in the vendor's format (spec §4.1/§8): an
alphabetic root symbol, the `YYMMDD` expiration, the type letter, a
five-digit whole-dollar strike and the three-digit sub-dollar fraction. -/
def encodeOption (root : List Char) (yy m d : Nat) (t : Char) (k frac : Nat) : List Char :=
  root ++ (pad2 yy ++ (pad2 m ++ (pad2 d ++ t :: (pad5 k ++ pad3 frac))))

/-- One row of the vendor feed: the identifier string plus the numeric fields
the core uses. -/
structure RawContract where
  option : List Char
  gamma : ℚ
  open_interest : ℚ
deriving DecidableEq

/-- A row after `fix_option_data`: the three derived columns.  `type` is
`Option Char` because `str.extract` leaves `NaN` where the pattern did not
match and the later `x.type == "P"` comparison is simply false on `NaN`. -/
structure DecodedContract where
  type : Option Char
  strike : Nat
  expiration : ℤ
  gamma : ℚ
  open_interest : ℚ
deriving DecidableEq

/-- The derived `type` column cell for one identifier. -/
def decodeType (s : List Char) : Option Char := extractType s

/-- The derived `strike` column cell for one identifier (extraction plus
`astype(int)`). -/
def decodeStrike (s : List Char) : Option Nat := (extractStrike s).map natOfDigits

/-- The derived `expiration` column cell for one identifier (extraction plus
`pd.to_datetime(..., format="%y%m%d")`). -/
def decodeExpiration (s : List Char) : Option ℤ := (extractExpiration s).bind toDatetime

/-- `fix_option_data` (src/main.py lines 58-69).  Column-wise like pandas:
`astype(int)` on the strike column raises if any cell's pattern failed to
match, and `pd.to_datetime` on the expiration column raises if any cell is
missing or not a valid `%y%m%d` date; either exception aborts the whole batch
with no output.  Otherwise every row gets its three derived fields. -/
def fix_option_data (batch : List RawContract) : Except String (List DecodedContract) :=
  if batch.all (fun r => (decodeStrike r.option).isSome) then
    if batch.all (fun r => (decodeExpiration r.option).isSome) then
      Except.ok (batch.map (fun r =>
        { type := decodeType r.option
          strike := (decodeStrike r.option).getD 0
          expiration := (decodeExpiration r.option).getD 0
          gamma := r.gamma
          open_interest := r.open_interest }))
    else Except.error "ValueError: to_datetime could not parse an expiration cell"
  else Except.error "IntCastingNaNError: cannot convert non-finite values to integer"

/-- `contract_size = 100` (src/main.py line 17). -/
def contract_size : ℚ := 100

/-- Line 75: `spot * gamma * open_interest * contract_size * spot * 0.01`. -/
def rawGEX (spot : ℚ) (c : DecodedContract) : ℚ :=
  spot * c.gamma * c.open_interest * contract_size * spot * 0.01

/-- Line 78: `-GEX if x.type == "P" else GEX`. -/
def GEX (spot : ℚ) (c : DecodedContract) : ℚ :=
  if c.type = some 'P' then -rawGEX spot c else rawGEX spot c

/-- A row carrying its computed `GEX` column. -/
structure ContractGEX where
  type : Option Char
  strike : Nat
  expiration : ℤ
  gamma : ℚ
  open_interest : ℚ
  gex : ℚ
deriving DecidableEq

/-- `compute_total_gex`'s column assignment (lines 75 and 78): attach the
signed GEX value to every row. -/
def withGEX (spot : ℚ) (data : List DecodedContract) : List ContractGEX :=
  data.map (fun c => ⟨c.type, c.strike, c.expiration, c.gamma, c.open_interest, GEX spot c⟩)

/-- The printed total of `compute_total_gex` (line 79): sum of the GEX column
scaled to billions. -/
def compute_total_gex (spot : ℚ) (data : List DecodedContract) : ℚ :=
  (((withGEX spot data).map (fun c => c.gex)).sum) / 10 ^ 9

/-- Sum of `v` over the members of `l` whose key is `k`: one group of a pandas
`groupby(...).sum()`. -/
def fiberSum {α κ : Type} [DecidableEq κ] (f : α → κ) (v : α → ℚ) (l : List α) (k : κ) : ℚ :=
  ((l.filter (fun a => decide (f a = k))).map v).sum

/-- `groupby(f)[v].sum()`: one entry per distinct key, carrying the fiber sum.
(pandas returns the groups sorted by key; no property proved here depends on
the order of the entries, only on which key-value pairs are present.) -/
def groupBySum {α κ : Type} [DecidableEq κ] (f : α → κ) (v : α → ℚ) (l : List α) : List (κ × ℚ) :=
  ((l.map f).dedup).map (fun k => (k, fiberSum f v l k))

/-- `data.groupby("strike")["GEX"].sum() / 10**9` (line 85). -/
def gex_by_strike (data : List ContractGEX) : List (Nat × ℚ) :=
  (groupBySum (fun c => c.strike) (fun c => c.gex) data).map (fun p => (p.1, p.2 / 10 ^ 9))

/-- Lines 85-91: the by-strike view after the display filter
`index > spot*0.85 and index < spot*1.15`. -/
def compute_gex_by_strike (spot : ℚ) (data : List ContractGEX) : List (Nat × ℚ) :=
  (gex_by_strike data).filter
    (fun p => decide (spot * 0.85 < (p.1 : ℚ)) && decide ((p.1 : ℚ) < spot * 1.15))

/-- The by-expiration grouping of line 131 without the date filter of line
130 (the unfiltered AggregateView). -/
def gex_by_expiration_all (data : List ContractGEX) : List (ℤ × ℚ) :=
  (groupBySum (fun c => c.expiration) (fun c => c.gex) data).map (fun p => (p.1, p.2 / 10 ^ 9))

/-- Lines 129-131: filter to expirations strictly before `today + 365` days,
then group by expiration and scale to billions. -/
def compute_gex_by_expiration (today : ℤ) (data : List ContractGEX) : List (ℤ × ℚ) :=
  let selected_date := today + 365
  (groupBySum (fun c => c.expiration) (fun c => c.gex)
      (data.filter (fun c => decide (c.expiration < selected_date)))).map
    (fun p => (p.1, p.2 / 10 ^ 9))

/-- The joint (expiration, strike) grouping of line 182 without the display
filter of lines 173-179 (the unfiltered joint AggregateView), scaled to
millions. -/
def gex_by_pair_all (data : List ContractGEX) : List ((ℤ × Nat) × ℚ) :=
  (groupBySum (fun c => (c.expiration, c.strike)) (fun c => c.gex) data).map
    (fun p => (p.1, p.2 / 10 ^ 6))

/-- Lines 173-187 of `print_gex_surface`: joint display filter, grouping by
(expiration, strike), scaling to millions, and `strftime` of the expiration. -/
def surface_grouped (spot : ℚ) (today : ℤ) (data : List ContractGEX) :
    List ((List Char × Nat) × ℚ) :=
  let selected_date := today + 365
  let limited := data.filter (fun c =>
    decide (c.expiration < selected_date) && decide (spot * 0.85 < (c.strike : ℚ)) &&
      decide ((c.strike : ℚ) < spot * 1.15))
  (groupBySum (fun c => (c.expiration, c.strike)) (fun c => c.gex) limited).map
    (fun p => ((fmtDate p.1.1, p.1.2), p.2 / 10 ^ 6))

/-- Python `sorted`, ascending. -/
def sortAsc {α : Type} [LinearOrder α] (l : List α) : List α :=
  l.insertionSort (· ≤ ·)

/-- Python `sorted(..., reverse=True)`, descending.  On duplicate-free input
this is exactly the descending order. -/
def sortDesc {α : Type} [LinearOrder α] (l : List α) : List α :=
  l.insertionSort (· ≥ ·)

/-- Line 190-192: `sorted(grouped_data["expiration"].unique(), reverse=True)`. -/
def x_unique (g : List ((List Char × Nat) × ℚ)) : List (List Char) :=
  sortDesc ((g.map (fun p => p.1.1)).dedup)

/-- The column labels of `grouped_data.pivot(index="strike",
columns="expiration")`: pandas sorts the column labels ascending. -/
def cols_asc (g : List ((List Char × Nat) × ℚ)) : List (List Char) :=
  sortAsc ((g.map (fun p => p.1.1)).dedup)

/-- Line 193: `sorted(grouped_data["strike"].unique())`, which is also the row
label order of the pivot (pandas sorts the index ascending). -/
def y_unique (g : List ((List Char × Nat) × ℚ)) : List Nat :=
  sortAsc ((g.map (fun p => p.1.2)).dedup)

/-- One cell of `pivot(...).fillna(0)`: the view's value at the given
(expiration, strike) pair, and `0` where the pair was not observed. -/
def cellValue (g : List ((List Char × Nat) × ℚ)) (e : List Char) (s : Nat) : ℚ :=
  match g.find? (fun p => decide (p.1 = (e, s))) with
  | some p => p.2
  | none => 0

/-- Lines 194-198: the dense grid `z`, one row per strike (ascending), one
column per expiration (ascending), zero-filled. -/
def pivot_z (g : List ((List Char × Nat) × ℚ)) : List (List ℚ) :=
  (y_unique g).map (fun s => (cols_asc g).map (fun e => cellValue g e s))

/-! ## Generic lemmas about `groupBySum` -/

theorem fiberSum_nil {α κ : Type} [DecidableEq κ] (f : α → κ) (v : α → ℚ) (k : κ) :
    fiberSum f v [] k = 0 := rfl

theorem fiberSum_cons {α κ : Type} [DecidableEq κ] (f : α → κ) (v : α → ℚ)
    (a : α) (l : List α) (k : κ) :
    fiberSum f v (a :: l) k = (if f a = k then v a else 0) + fiberSum f v l k := by
  unfold fiberSum
  by_cases h : f a = k <;> simp [List.filter_cons, h]

theorem list_sum_map_add {γ : Type} (K : List γ) (g h : γ → ℚ) :
    (K.map (fun k => g k + h k)).sum = (K.map g).sum + (K.map h).sum := by
  induction K with
  | nil => simp
  | cons a K ih => simp only [List.map_cons, List.sum_cons, ih]; ring

theorem list_sum_map_ite_zero {γ : Type} [DecidableEq γ] (K : List γ) (k0 : γ) (c : ℚ)
    (h : k0 ∉ K) : (K.map (fun k => if k0 = k then c else 0)).sum = 0 := by
  induction K with
  | nil => simp
  | cons a K ih =>
    simp only [List.mem_cons, not_or] at h
    simp only [List.map_cons, List.sum_cons, if_neg h.1, ih h.2, add_zero]

theorem list_sum_map_ite_eq {γ : Type} [DecidableEq γ] (K : List γ) (hK : K.Nodup)
    (k0 : γ) (hk : k0 ∈ K) (c : ℚ) :
    (K.map (fun k => if k0 = k then c else 0)).sum = c := by
  induction K with
  | nil => cases hk
  | cons a K ih =>
    have hnd := List.nodup_cons.mp hK
    rcases List.mem_cons.mp hk with h | h
    · subst h
      simp only [List.map_cons, List.sum_cons, if_pos rfl,
        list_sum_map_ite_zero K k0 c hnd.1, add_zero]
      simp
    · have hne : k0 ≠ a := fun e => hnd.1 (e ▸ h)
      simp only [List.map_cons, List.sum_cons, if_neg hne, ih hnd.2 h, zero_add]

theorem sum_fiberSum {α κ : Type} [DecidableEq κ] (f : α → κ) (v : α → ℚ) :
    ∀ (l : List α) (K : List κ), K.Nodup → (∀ a ∈ l, f a ∈ K) →
      (K.map (fiberSum f v l)).sum = (l.map v).sum := by
  intro l
  induction l with
  | nil =>
    intro K _ _
    have : K.map (fiberSum f v []) = K.map (fun _ => 0) := by
      apply List.map_congr_left; intro k _; rfl
    simp [this]
  | cons a l ih =>
    intro K hnd hcov
    have hsplit : fiberSum f v (a :: l) =
        fun k => (if f a = k then v a else 0) + fiberSum f v l k :=
      funext (fiberSum_cons f v a l)
    rw [hsplit, list_sum_map_add,
      list_sum_map_ite_eq K hnd (f a) (hcov a (by simp)) (v a),
      ih K hnd (fun b hb => hcov b (by simp [hb]))]
    simp

theorem groupBySum_values_sum {α κ : Type} [DecidableEq κ] (f : α → κ) (v : α → ℚ)
    (l : List α) :
    ((groupBySum f v l).map Prod.snd).sum = (l.map v).sum := by
  unfold groupBySum
  rw [List.map_map]
  exact sum_fiberSum f v l _ (List.nodup_dedup _)
    (fun a ha => List.mem_dedup.mpr (List.mem_map_of_mem f ha))

theorem mem_groupBySum {α κ : Type} [DecidableEq κ] {f : α → κ} {v : α → ℚ}
    {l : List α} {k : κ} {x : ℚ} :
    (k, x) ∈ groupBySum f v l ↔ k ∈ (l.map f).dedup ∧ x = fiberSum f v l k := by
  unfold groupBySum
  constructor
  · intro h
    rcases List.mem_map.mp h with ⟨k', hk', he⟩
    injection he with h1 h2
    subst h1; subst h2
    exact ⟨hk', rfl⟩
  · rintro ⟨h1, rfl⟩
    exact List.mem_map_of_mem _ h1

theorem list_sum_map_div {κ : Type} (G : List (κ × ℚ)) (b : ℚ) :
    (G.map (fun p => p.2 / b)).sum = (G.map Prod.snd).sum / b := by
  induction G with
  | nil => simp
  | cons a G ih => simp only [List.map_cons, List.sum_cons, ih, add_div]

theorem mem_map_scale {κ : Type} {G : List (κ × ℚ)} {b : ℚ} {k : κ} {x : ℚ} :
    (k, x) ∈ G.map (fun p => (p.1, p.2 / b)) ↔ ∃ y, (k, y) ∈ G ∧ x = y / b := by
  constructor
  · intro h
    rcases List.mem_map.mp h with ⟨⟨k', y⟩, hp, he⟩
    injection he with h1 h2
    subst h1; subst h2
    exact ⟨y, hp, rfl⟩
  · rintro ⟨y, hy, rfl⟩
    exact List.mem_map_of_mem _ hy

theorem list_sum_nonpos (l : List ℚ) (h : ∀ x ∈ l, x ≤ 0) : l.sum ≤ 0 := by
  induction l with
  | nil => simp
  | cons a l ih =>
    simp only [List.sum_cons]
    have := h a (by simp)
    have := ih (fun x hx => h x (by simp [hx]))
    linarith

theorem scaled_view_sum {κ : Type} (G : List (κ × ℚ)) (b : ℚ) :
    ((G.map (fun p => (p.1, p.2 / b))).map Prod.snd).sum = (G.map Prod.snd).sum / b := by
  rw [List.map_map]
  show (G.map (fun p => p.2 / b)).sum = _
  exact list_sum_map_div G b

theorem GEX_of_not_put (spot : ℚ) (c : DecodedContract) (h : c.type ≠ some 'P') :
    GEX spot c = rawGEX spot c := by
  unfold GEX; exact if_neg h

theorem GEX_of_put (spot : ℚ) (c : DecodedContract) (h : c.type = some 'P') :
    GEX spot c = -rawGEX spot c := by
  unfold GEX; exact if_pos h

/-! ## Claim theorems (first batch) -/

/-- C1 (counterexample to the quoted numbers): with spot 100, a Call with
gamma 0.05 and open interest 1000 gets GEX 500,000 — not the 5,000,000 the
claim states — and a Put with gamma 0.04 and open interest 800 gets
GEX −320,000, not −3,200,000. -/
theorem gex_example_numbers_false :
    GEX 100 ⟨some 'C', 105, 30, 0.05, 1000⟩ = 500000 ∧
    GEX 100 ⟨some 'C', 105, 30, 0.05, 1000⟩ ≠ 5000000 ∧
    GEX 100 ⟨some 'P', 95, 30, 0.04, 800⟩ = -320000 ∧
    GEX 100 ⟨some 'P', 95, 30, 0.04, 800⟩ ≠ -3200000 := by
  have hc : GEX 100 ⟨some 'C', 105, 30, 0.05, 1000⟩ =
      rawGEX 100 ⟨some 'C', 105, 30, 0.05, 1000⟩ :=
    GEX_of_not_put _ _ (by decide)
  have hp : GEX 100 ⟨some 'P', 95, 30, 0.04, 800⟩ =
      -rawGEX 100 ⟨some 'P', 95, 30, 0.04, 800⟩ :=
    GEX_of_put _ _ rfl
  rw [hc, hp]
  refine ⟨?_, ?_, ?_, ?_⟩ <;> norm_num [rawGEX, contract_size]

/-- C1 (amended): the GEX Calculator produces
`gex = S * gamma * oi * 100 * S * 0.01` for a Call and the negation of that
value for a Put; in particular with spot 100 a Call with gamma 0.05 and open
interest 1000 yields 500,000 and a Put with gamma 0.04 and open interest 800
yields −320,000. -/
theorem gex_formula (spot : ℚ) (c : DecodedContract) :
    (c.type = some 'C' →
      GEX spot c = spot * c.gamma * c.open_interest * 100 * spot * 0.01) ∧
    (c.type = some 'P' →
      GEX spot c = -(spot * c.gamma * c.open_interest * 100 * spot * 0.01)) ∧
    GEX 100 ⟨some 'C', 105, 30, 0.05, 1000⟩ = 500000 ∧
    GEX 100 ⟨some 'P', 95, 30, 0.04, 800⟩ = -320000 := by
  refine ⟨?_, ?_, ?_, ?_⟩
  · intro h
    rw [GEX_of_not_put spot c (by rw [h]; decide)]
    rfl
  · intro h
    rw [GEX_of_put spot c h]
    rfl
  · rw [GEX_of_not_put _ _ (by decide)]
    norm_num [rawGEX, contract_size]
  · rw [GEX_of_put _ _ rfl]
    norm_num [rawGEX, contract_size]

/-- Witness for `gex_formula` at a concrete Call contract: both hypotheses of
the conditional parts are dischargeable. -/
theorem gex_formula_witness :
    GEX 100 ⟨some 'C', 105, 30, 0.05, 1000⟩ =
      100 * (0.05 : ℚ) * 1000 * 100 * 100 * 0.01 :=
  (gex_formula 100 ⟨some 'C', 105, 30, 0.05, 1000⟩).1 rfl

/-- C3: for every ContractGEX sequence, the values of each unfiltered
AggregateView (by strike, by expiration, by the (expiration, strike) pair)
sum to the sum of the input gex values, up to the view's unit scaling — no
record is lost or double-counted by grouping. -/
theorem grouping_conservation (data : List ContractGEX) :
    ((gex_by_strike data).map Prod.snd).sum = (data.map (fun c => c.gex)).sum / 10 ^ 9 ∧
    ((gex_by_expiration_all data).map Prod.snd).sum = (data.map (fun c => c.gex)).sum / 10 ^ 9 ∧
    ((gex_by_pair_all data).map Prod.snd).sum = (data.map (fun c => c.gex)).sum / 10 ^ 6 := by
  refine ⟨?_, ?_, ?_⟩ <;>
    · simp only [gex_by_strike, gex_by_expiration_all, gex_by_pair_all]
      rw [scaled_view_sum, groupBySum_values_sum]

/-- C5: the by-strike display filter retains the group for strike `s` exactly
when `0.85 * spot < s` and `s < 1.15 * spot`; a strike sitting exactly on
either bound is excluded. -/
theorem by_strike_filter_band (spot : ℚ) (data : List ContractGEX) (s : Nat) (x : ℚ) :
    ((s, x) ∈ compute_gex_by_strike spot data ↔
      (s, x) ∈ gex_by_strike data ∧ spot * 0.85 < (s : ℚ) ∧ (s : ℚ) < spot * 1.15) ∧
    ((s : ℚ) = spot * 0.85 → (s, x) ∉ compute_gex_by_strike spot data) ∧
    ((s : ℚ) = spot * 1.15 → (s, x) ∉ compute_gex_by_strike spot data) := by
  have hiff : (s, x) ∈ compute_gex_by_strike spot data ↔
      (s, x) ∈ gex_by_strike data ∧ spot * 0.85 < (s : ℚ) ∧ (s : ℚ) < spot * 1.15 := by
    simp [compute_gex_by_strike, List.mem_filter]
  refine ⟨hiff, ?_, ?_⟩
  · intro he hm
    exact absurd ((hiff.mp hm).2.1) (by rw [← he]; exact lt_irrefl _)
  · intro he hm
    exact absurd ((hiff.mp hm).2.2) (by rw [he]; exact lt_irrefl _)

/-- Witness for `by_strike_filter_band`: with spot 100 the strike 85 sits on
the lower bound `0.85 * 100` and is excluded. -/
theorem by_strike_filter_band_witness :
    (85, (0 : ℚ)) ∉ compute_gex_by_strike 100 [] :=
  (by_strike_filter_band 100 [] 85 0).2.1 (show ((85 : Nat) : ℚ) = 100 * 0.85 by norm_num)

/-- C7: whenever every contract has non-negative gamma and open interest, the
Call contracts contribute a non-negative GEX sum and the Put contracts a
non-positive one. -/
theorem sign_convention (spot : ℚ) (l : List DecodedContract)
    (h : ∀ c ∈ l, 0 ≤ c.gamma ∧ 0 ≤ c.open_interest) :
    0 ≤ ((l.filter (fun c => decide (c.type = some 'C'))).map (GEX spot)).sum ∧
    ((l.filter (fun c => decide (c.type = some 'P'))).map (GEX spot)).sum ≤ 0 := by
  have hraw : ∀ c ∈ l, 0 ≤ rawGEX spot c := by
    intro c hc
    have hg := h c hc
    have : rawGEX spot c = spot * spot * (c.gamma * c.open_interest) := by
      unfold rawGEX contract_size; ring_nf
    rw [this]
    exact mul_nonneg (mul_self_nonneg spot) (mul_nonneg hg.1 hg.2)
  constructor
  · apply List.sum_nonneg
    intro x hx
    rcases List.mem_map.mp hx with ⟨c, hc, rfl⟩
    have hc' := List.mem_filter.mp hc
    have ht : c.type = some 'C' := by simpa using hc'.2
    have : GEX spot c = rawGEX spot c := by simp [GEX, ht]
    rw [this]
    exact hraw c hc'.1
  · apply list_sum_nonpos
    intro x hx
    rcases List.mem_map.mp hx with ⟨c, hc, rfl⟩
    have hc' := List.mem_filter.mp hc
    have ht : c.type = some 'P' := by simpa using hc'.2
    have : GEX spot c = -rawGEX spot c := by simp [GEX, ht]
    rw [this]
    simpa using hraw c hc'.1

/-- Witness for `sign_convention` on a concrete two-contract list. -/
theorem sign_convention_witness :
    0 ≤ (([⟨some 'C', 105, 30, 0.05, 1000⟩, ⟨some 'P', 95, 30, 0.04, 800⟩].filter
        (fun c : DecodedContract => decide (c.type = some 'C'))).map (GEX 100)).sum ∧
    (([⟨some 'C', 105, 30, 0.05, 1000⟩, ⟨some 'P', 95, 30, 0.04, 800⟩].filter
        (fun c : DecodedContract => decide (c.type = some 'P'))).map (GEX 100)).sum ≤ 0 :=
  sign_convention 100 _ (by intro c hc; fin_cases hc <;> norm_num)

/-! ## C6: the by-expiration view's date filter -/

theorem mem_dedup_map_filter (today : ℤ) (data : List ContractGEX) (e : ℤ) :
    (e ∈ ((data.filter (fun c => decide (c.expiration < today + 365))).map
        (fun c => c.expiration)).dedup) ↔
      e ∈ (data.map (fun c => c.expiration)).dedup ∧ e < today + 365 := by
  simp only [List.mem_dedup, List.mem_map, List.mem_filter]
  constructor
  · rintro ⟨c, ⟨hc, hp⟩, rfl⟩
    exact ⟨⟨c, hc, rfl⟩, by simpa using hp⟩
  · rintro ⟨⟨c, hc, rfl⟩, hlt⟩
    exact ⟨c, ⟨hc, by simpa using hlt⟩, rfl⟩

theorem fiberSum_filter_key (today : ℤ) (data : List ContractGEX) (e : ℤ)
    (he : e < today + 365) :
    fiberSum (fun c => c.expiration) (fun c => c.gex)
        (data.filter (fun c => decide (c.expiration < today + 365))) e =
      fiberSum (fun c => c.expiration) (fun c => c.gex) data e := by
  unfold fiberSum
  rw [List.filter_filter]
  congr 1
  congr 1
  apply List.filter_congr
  intro c _
  by_cases h : c.expiration = e
  · simp [h, he]
  · simp [h]

/-- C6: the by-expiration view retains exactly the groups whose expiration is
strictly before `today + 365` days, and there is no lower date bound: any
group of the unfiltered view with an expiration before the cutoff — in
particular an already-expired one — is retained. -/
theorem by_expiration_no_lower_bound (today : ℤ) (data : List ContractGEX) (e : ℤ) (x : ℚ) :
    ((e, x) ∈ compute_gex_by_expiration today data ↔
      (e, x) ∈ gex_by_expiration_all data ∧ e < today + 365) ∧
    (e < today → (e, x) ∈ gex_by_expiration_all data →
      (e, x) ∈ compute_gex_by_expiration today data) := by
  have hiff : (e, x) ∈ compute_gex_by_expiration today data ↔
      (e, x) ∈ gex_by_expiration_all data ∧ e < today + 365 := by
    simp only [compute_gex_by_expiration, gex_by_expiration_all]
    constructor
    · intro h
      rcases mem_map_scale.mp h with ⟨y, hy, rfl⟩
      rcases mem_groupBySum.mp hy with ⟨hk, rfl⟩
      rcases (mem_dedup_map_filter today data e).mp hk with ⟨hk', hlt⟩
      refine ⟨mem_map_scale.mpr ⟨_, mem_groupBySum.mpr ⟨hk', rfl⟩, ?_⟩, hlt⟩
      rw [fiberSum_filter_key today data e hlt]
    · rintro ⟨h, hlt⟩
      rcases mem_map_scale.mp h with ⟨y, hy, rfl⟩
      rcases mem_groupBySum.mp hy with ⟨hk, rfl⟩
      refine mem_map_scale.mpr ⟨_, mem_groupBySum.mpr
        ⟨(mem_dedup_map_filter today data e).mpr ⟨hk, hlt⟩, rfl⟩, ?_⟩
      rw [fiberSum_filter_key today data e hlt]
  refine ⟨hiff, fun h1 h2 => hiff.mpr ⟨h2, by linarith⟩⟩

/-- Witness for `by_expiration_no_lower_bound`: an already-expired group
(expiration 10 days before `today`) is retained by the view. -/
theorem by_expiration_no_lower_bound_witness :
    ((-10 : ℤ), (5 : ℚ) / 10 ^ 9) ∈ compute_gex_by_expiration 0
      [⟨some 'C', 100, -10, 1, 1, 5⟩] :=
  (by_expiration_no_lower_bound 0 [⟨some 'C', 100, -10, 1, 1, 5⟩] (-10) (5 / 10 ^ 9)).2
    (by decide)
    (by simp [gex_by_expiration_all, groupBySum, fiberSum, List.filter, List.dedup])

/-! ## Lemmas about the three extraction regexes -/

theorem upper_not_digit {c : Char} (h : isUpperAZ c = true) : isDigit10 c = false := by
  unfold isUpperAZ at h
  unfold isDigit10
  simp only [Bool.and_eq_true, decide_eq_true_eq] at h
  simp only [Bool.and_eq_false_iff, decide_eq_false_iff_not, not_le]
  omega

theorem digit_not_upper {c : Char} (h : isDigit10 c = true) : isUpperAZ c = false := by
  unfold isDigit10 at h
  unfold isUpperAZ
  simp only [Bool.and_eq_true, decide_eq_true_eq] at h
  simp only [Bool.and_eq_false_iff, decide_eq_false_iff_not, not_le]
  omega

theorem digitRun_cons_digit {c : Char} (h : isDigit10 c = true) (l : List Char) :
    digitRun (c :: l) = c :: digitRun l := by
  show (if isDigit10 c = true then c :: digitRun l else []) = c :: digitRun l
  rw [if_pos h]

theorem digitRun_cons_nondigit {c : Char} (h : isDigit10 c = false) (l : List Char) :
    digitRun (c :: l) = [] := by
  show (if isDigit10 c = true then c :: digitRun l else []) = []
  rw [h]; simp

theorem digitRun_append_digits {ds : List Char} (h : ∀ c ∈ ds, isDigit10 c = true)
    (l : List Char) : digitRun (ds ++ l) = ds ++ digitRun l := by
  induction ds with
  | nil => simp
  | cons a ds ih =>
    rw [List.cons_append, digitRun_cons_digit (h a (by simp)), ih (fun c hc => h c (by simp [hc]))]
    rfl

theorem digitRun_pos_head (r : List Char) (h : 1 ≤ (digitRun r).length) :
    ∃ c r', r = c :: r' ∧ isDigit10 c = true := by
  match r with
  | [] => simp [digitRun] at h
  | c :: r' =>
    by_cases hc : isDigit10 c = true
    · exact ⟨c, r', rfl, hc⟩
    · rw [digitRun_cons_nondigit (by simpa using hc)] at h
      simp at h

theorem extractType_step_nondigit {a : Char} (ha : isDigit10 a = false) (l : List Char) :
    extractType (a :: l) = extractType l := by
  match l with
  | [] => rfl
  | [b] => rfl
  | b :: c :: r => rw [extractType, ha]; simp

theorem extractType_step_nonupper {b : Char} (hb : isUpperAZ b = false) (a : Char)
    (l : List Char) : extractType (a :: b :: l) = extractType (b :: l) := by
  match l with
  | [] => rfl
  | c :: r => rw [extractType, hb]; simp

theorem extractType_hit {a b c : Char} (ha : isDigit10 a = true) (hb : isUpperAZ b = true)
    (hc : isDigit10 c = true) (l : List Char) :
    extractType (a :: b :: c :: l) = some b := by
  rw [extractType, ha, hb, hc]; simp

theorem extractStrike_step_nondigit {a : Char} (ha : isDigit10 a = false) (l : List Char) :
    extractStrike (a :: l) = extractStrike l := by
  match l with
  | [] => rfl
  | b :: r => rw [extractStrike, ha]; simp

theorem extractStrike_step_nonupper {b : Char} (hb : isUpperAZ b = false) (a : Char)
    (l : List Char) : extractStrike (a :: b :: l) = extractStrike (b :: l) := by
  rw [extractStrike, hb]; simp

theorem extractStrike_hit {a b : Char} (ha : isDigit10 a = true) (hb : isUpperAZ b = true)
    {l : List Char} (hl : 4 ≤ (digitRun l).length) :
    extractStrike (a :: b :: l) = some ((digitRun l).take ((digitRun l).length - 3)) := by
  rw [extractStrike, ha, hb]
  simp [hl]

theorem extractExpiration_hit {a : Char} (ha : isUpperAZ a = true) {l : List Char}
    (hl : startsWithDigit l = true) : extractExpiration (a :: l) = some (digitRun l) := by
  rw [extractExpiration, ha, hl]; simp

theorem extractExpiration_step {a : Char} (l : List Char)
    (h : (isUpperAZ a && startsWithDigit l) = false) :
    extractExpiration (a :: l) = extractExpiration l := by
  rw [extractExpiration, h]; simp

theorem strike_imp_type : ∀ s : List Char,
    (extractStrike s).isSome = true → (extractType s).isSome = true := by
  intro s
  induction s with
  | nil => intro h; simp [extractStrike] at h
  | cons a t ih =>
    intro h
    match t, ih, h with
    | [], _, h => simp [extractStrike] at h
    | b :: r, ih, h =>
      rw [extractStrike] at h
      by_cases hg : (isDigit10 a && isUpperAZ b && decide (4 ≤ (digitRun r).length)) = true
      · obtain ⟨⟨h1, h2⟩, h3⟩ := by simpa only [Bool.and_eq_true] using hg
        obtain ⟨c, r', rfl, hc⟩ :=
          digitRun_pos_head r (by have := of_decide_eq_true h3; omega)
        rw [extractType_hit h1 h2 hc]
        rfl
      · rw [if_neg hg] at h
        have htail := ih h
        match r, htail with
        | [], htail => simp [extractType] at htail
        | c :: r', htail =>
          rw [extractType]
          by_cases hg2 : (isDigit10 a && isUpperAZ b && isDigit10 c) = true
          · rw [if_pos hg2]; rfl
          · rw [if_neg hg2]; exact htail

theorem strike_imp_exp : ∀ s : List Char,
    (extractStrike s).isSome = true → (extractExpiration s).isSome = true := by
  intro s
  induction s with
  | nil => intro h; simp [extractStrike] at h
  | cons a t ih =>
    intro h
    match t, ih, h with
    | [], _, h => simp [extractStrike] at h
    | b :: r, ih, h =>
      rw [extractStrike] at h
      by_cases hg : (isDigit10 a && isUpperAZ b && decide (4 ≤ (digitRun r).length)) = true
      · obtain ⟨⟨h1, h2⟩, h3⟩ := by simpa only [Bool.and_eq_true] using hg
        obtain ⟨c, r', rfl, hc⟩ :=
          digitRun_pos_head r (by have := of_decide_eq_true h3; omega)
        have hstep : extractExpiration (a :: b :: c :: r') = extractExpiration (b :: c :: r') :=
          extractExpiration_step _ (by simp [digit_not_upper h1])
        rw [hstep, extractExpiration_hit h2 (by simp [startsWithDigit, hc])]
        rfl
      · rw [if_neg hg] at h
        have htail := ih h
        rw [extractExpiration]
        by_cases hg2 : (isUpperAZ a && startsWithDigit (b :: r)) = true
        · rw [if_pos hg2]; rfl
        · rw [if_neg hg2]; exact htail

/-- C2: if any identifier in the batch fails any of the three decode
patterns, the whole batch fails (the strike column's `astype(int)` or the
expiration column's `to_datetime` raises), producing zero partial output: no
record with a non-matching identifier is carried forward. -/
theorem decode_failure_aborts_batch (batch : List RawContract)
    (h : ∃ r ∈ batch, extractType r.option = none ∨ extractStrike r.option = none ∨
      extractExpiration r.option = none) :
    (∃ msg, fix_option_data batch = Except.error msg) ∧
    ∀ out, fix_option_data batch ≠ Except.ok out := by
  rcases h with ⟨r, hr, hfail⟩
  have hstrike : extractStrike r.option = none := by
    rcases hfail with h | h | h
    · cases hs : extractStrike r.option with
      | none => rfl
      | some g =>
        have := strike_imp_type r.option (by simp [hs])
        rw [h] at this
        simp at this
    · exact h
    · cases hs : extractStrike r.option with
      | none => rfl
      | some g =>
        have := strike_imp_exp r.option (by simp [hs])
        rw [h] at this
        simp at this
  have hall : batch.all (fun r => (decodeStrike r.option).isSome) = false := by
    rw [List.all_eq_false]
    exact ⟨r, hr, by simp [decodeStrike, hstrike]⟩
  have herr : fix_option_data batch =
      Except.error "IntCastingNaNError: cannot convert non-finite values to integer" := by
    unfold fix_option_data
    rw [hall]
    simp
  exact ⟨⟨_, herr⟩, fun out hok => by rw [herr] at hok; cases hok⟩

/-- Witness for `decode_failure_aborts_batch`: a batch with one well-formed
and one malformed identifier fails whole, with no output. -/
theorem decode_failure_aborts_batch_witness :
    (∃ msg, fix_option_data
      [⟨"SPY240119C00100000".data, 1, 2⟩, ⟨"badid".data, 1, 2⟩] = Except.error msg) ∧
    ∀ out, fix_option_data
      [⟨"SPY240119C00100000".data, 1, 2⟩, ⟨"badid".data, 1, 2⟩] ≠ Except.ok out :=
  decode_failure_aborts_batch _
    ⟨⟨"badid".data, 1, 2⟩, by simp, Or.inl (by decide)⟩

/-- C9: the decoder accepts any uppercase letter at the type position (the
pattern is `\d([A-Z])\d`, not `\d([CP])\d`), and the GEX Calculator negates
only on the letter P, so a contract with any other extracted letter keeps the
raw (Call-signed) gex value. -/
theorem non_put_letter_treated_as_call (spot : ℚ) (t : Char)
    (hup : isUpperAZ t = true) (hne : t ≠ 'P') :
    (∀ (a d : Char) (l : List Char), isDigit10 a = true → isDigit10 d = true →
      extractType (a :: t :: d :: l) = some t) ∧
    (∀ c : DecodedContract, c.type = some t → GEX spot c = rawGEX spot c) := by
  constructor
  · intro a d l ha hd
    exact extractType_hit ha hup hd l
  · intro c h
    apply GEX_of_not_put
    rw [h]
    simp [hne]

/-- Witness for `non_put_letter_treated_as_call` at the letter X: the decoder
extracts X and the calculator does not negate. -/
theorem non_put_letter_treated_as_call_witness :
    extractType ('1' :: 'X' :: '2' :: []) = some 'X' ∧
    GEX 2 ⟨some 'X', 1, 0, 3, 4⟩ = rawGEX 2 ⟨some 'X', 1, 0, 3, 4⟩ :=
  ⟨(non_put_letter_treated_as_call 2 'X' (by decide) (by decide)).1 '1' '2' []
      (by decide) (by decide),
    (non_put_letter_treated_as_call 2 'X' (by decide) (by decide)).2 _ rfl⟩

/-! ## Lemmas for the decode round-trip (C8) -/

theorem dig_isDigit {n : Nat} (h : n < 10) : isDigit10 (dig n) = true := by
  interval_cases n <;> decide

theorem dig_not_upper {n : Nat} (h : n < 10) : isUpperAZ (dig n) = false := by
  interval_cases n <;> decide

theorem digVal_dig {n : Nat} (h : n < 10) : digVal (dig n) = n := by
  interval_cases n <;> decide

theorem pad2_digits (n : Nat) : ∀ c ∈ pad2 n, isDigit10 c = true := by
  intro c hc
  simp only [pad2, List.mem_cons, List.not_mem_nil, or_false] at hc
  rcases hc with rfl | rfl <;>
    exact dig_isDigit (Nat.mod_lt _ (by norm_num))

theorem pad3_digits (n : Nat) : ∀ c ∈ pad3 n, isDigit10 c = true := by
  intro c hc
  simp only [pad3, List.mem_cons, List.not_mem_nil, or_false] at hc
  rcases hc with rfl | rfl | rfl <;>
    exact dig_isDigit (Nat.mod_lt _ (by norm_num))

theorem pad5_digits (n : Nat) : ∀ c ∈ pad5 n, isDigit10 c = true := by
  intro c hc
  simp only [pad5, List.mem_cons, List.not_mem_nil, or_false] at hc
  rcases hc with rfl | rfl | rfl | rfl | rfl <;>
    exact dig_isDigit (Nat.mod_lt _ (by norm_num))

theorem extractType_append_root {root : List Char}
    (h : ∀ c ∈ root, isUpperAZ c = true) (l : List Char) :
    extractType (root ++ l) = extractType l := by
  induction root with
  | nil => rfl
  | cons a rs ih =>
    rw [List.cons_append,
      extractType_step_nondigit (upper_not_digit (h a (by simp))),
      ih (fun c hc => h c (by simp [hc]))]

theorem extractStrike_append_root {root : List Char}
    (h : ∀ c ∈ root, isUpperAZ c = true) (l : List Char) :
    extractStrike (root ++ l) = extractStrike l := by
  induction root with
  | nil => rfl
  | cons a rs ih =>
    rw [List.cons_append,
      extractStrike_step_nondigit (upper_not_digit (h a (by simp))),
      ih (fun c hc => h c (by simp [hc]))]

theorem extractExpiration_append_root {root : List Char} (hne : root ≠ [])
    (h : ∀ c ∈ root, isUpperAZ c = true) {l : List Char}
    (hd : startsWithDigit l = true) :
    extractExpiration (root ++ l) = some (digitRun l) := by
  induction root with
  | nil => exact absurd rfl hne
  | cons a rs ih =>
    cases rs with
    | nil =>
      simp only [List.cons_append, List.nil_append]
      exact extractExpiration_hit (h a (by simp)) hd
    | cons b rs' =>
      rw [List.cons_append]
      have hb : isUpperAZ b = true := h b (by simp)
      have hstep : extractExpiration (a :: ((b :: rs') ++ l)) =
          extractExpiration ((b :: rs') ++ l) := by
        apply extractExpiration_step
        simp [startsWithDigit, upper_not_digit hb]
      rw [hstep]
      exact ih (by simp) (fun c hc => h c (by simp [hc]))

theorem extractType_skip_digits : ∀ (ds : List Char), ds ≠ [] →
    (∀ c ∈ ds, isDigit10 c = true) → ∀ (t k1 : Char) (l : List Char),
    isUpperAZ t = true → isDigit10 k1 = true →
    extractType (ds ++ t :: k1 :: l) = some t := by
  intro ds
  induction ds with
  | nil => intro h; exact absurd rfl h
  | cons a ds' ih =>
    intro _ hall t k1 l ht hk
    cases ds' with
    | nil =>
      simpa using extractType_hit (hall a (by simp)) ht hk l
    | cons b ds'' =>
      have hb : isDigit10 b = true := hall b (by simp)
      rw [List.cons_append, List.cons_append,
        extractType_step_nonupper (digit_not_upper hb)]
      rw [← List.cons_append]
      exact ih (by simp) (fun c hc => hall c (by simp [List.mem_cons] at hc ⊢; tauto))
        t k1 l ht hk

theorem extractStrike_skip_digits : ∀ (ds : List Char), ds ≠ [] →
    (∀ c ∈ ds, isDigit10 c = true) → ∀ (t : Char) (l : List Char),
    isUpperAZ t = true → 4 ≤ (digitRun l).length →
    extractStrike (ds ++ t :: l) = some ((digitRun l).take ((digitRun l).length - 3)) := by
  intro ds
  induction ds with
  | nil => intro h; exact absurd rfl h
  | cons a ds' ih =>
    intro _ hall t l ht hl
    cases ds' with
    | nil =>
      simpa using extractStrike_hit (hall a (by simp)) ht hl
    | cons b ds'' =>
      have hb : isDigit10 b = true := hall b (by simp)
      rw [List.cons_append, List.cons_append,
        extractStrike_step_nonupper (digit_not_upper hb)]
      rw [← List.cons_append]
      exact ih (by simp) (fun c hc => hall c (by simp [List.mem_cons] at hc ⊢; tauto))
        t l ht hl

theorem digitRun_all {l : List Char} (h : ∀ c ∈ l, isDigit10 c = true) :
    digitRun l = l := by
  have := digitRun_append_digits h []
  simpa [digitRun] using this

theorem daysInMonth_le_31 (y m : Nat) : daysInMonth y m ≤ 31 := by
  unfold daysInMonth
  split
  · split <;> norm_num
  · split <;> norm_num

theorem natOfDigits_pad5 {k : Nat} (hk : k < 100000) : natOfDigits (pad5 k) = k := by
  have h1 : k / 10000 % 10 < 10 := Nat.mod_lt _ (by norm_num)
  have h2 : k / 1000 % 10 < 10 := Nat.mod_lt _ (by norm_num)
  have h3 : k / 100 % 10 < 10 := Nat.mod_lt _ (by norm_num)
  have h4 : k / 10 % 10 < 10 := Nat.mod_lt _ (by norm_num)
  have h5 : k % 10 < 10 := Nat.mod_lt _ (by norm_num)
  simp only [natOfDigits, pad5, List.foldl_cons, List.foldl_nil,
    digVal_dig h1, digVal_dig h2, digVal_dig h3, digVal_dig h4, digVal_dig h5]
  omega

theorem parseMonth_pad2 (m : Nat) (h1 : 1 ≤ m) (h2 : m ≤ 12) (rest : List Char) :
    parseMonth (pad2 m ++ rest) = some (m, rest) := by
  interval_cases m <;> simp [pad2, dig, parseMonth, digVal]

theorem parseDay_pad2 (d : Nat) (h1 : 1 ≤ d) (h2 : d ≤ 31) :
    parseDay (pad2 d) = some (d, []) := by
  interval_cases d <;> simp [pad2, dig, parseDay, digVal] <;> decide

theorem parseYMD_pads (yy m d : Nat) (hyy : yy ≤ 99) (hm1 : 1 ≤ m) (hm2 : m ≤ 12)
    (hd1 : 1 ≤ d) (hd2 : d ≤ daysInMonth (pivotYear yy) m) :
    parseYMD (pad2 yy ++ (pad2 m ++ pad2 d)) = some (pivotYear yy, m, d) := by
  have hd31 : d ≤ 31 := le_trans hd2 (daysInMonth_le_31 _ _)
  have h1 : yy / 10 % 10 < 10 := Nat.mod_lt _ (by norm_num)
  have h2 : yy % 10 < 10 := Nat.mod_lt _ (by norm_num)
  have hshape : pad2 yy ++ (pad2 m ++ pad2 d) =
      dig (yy / 10 % 10) :: dig (yy % 10) :: (pad2 m ++ pad2 d) := by
    simp [pad2]
  rw [hshape]
  simp only [parseYMD, dig_isDigit h1, dig_isDigit h2, Bool.and_self, if_true,
    digVal_dig h1, digVal_dig h2, parseMonth_pad2 m hm1 hm2, parseDay_pad2 d hd1 hd31]
  rw [show 10 * (yy / 10 % 10) + yy % 10 = yy from by omega]
  simp [hd1, hd2]

theorem encode_extractType (root : List Char) (yy m d : Nat) (t : Char) (k frac : Nat)
    (hrootU : ∀ c ∈ root, isUpperAZ c = true) (ht : isUpperAZ t = true) :
    extractType (encodeOption root yy m d t k frac) = some t := by
  unfold encodeOption
  rw [extractType_append_root hrootU]
  have hassoc : pad2 yy ++ (pad2 m ++ (pad2 d ++ t :: (pad5 k ++ pad3 frac))) =
      (pad2 yy ++ pad2 m ++ pad2 d) ++ t :: (pad5 k ++ pad3 frac) := by
    simp [List.append_assoc]
  rw [hassoc]
  have hk5 : pad5 k ++ pad3 frac = dig (k / 10000 % 10) ::
      (dig (k / 1000 % 10) :: dig (k / 100 % 10) :: dig (k / 10 % 10) :: dig (k % 10) ::
        pad3 frac) := by
    simp [pad5]
  rw [hk5]
  have hds : ∀ c ∈ pad2 yy ++ pad2 m ++ pad2 d, isDigit10 c = true := by
    intro c hc
    simp only [List.mem_append] at hc
    rcases hc with (hc | hc) | hc
    exacts [pad2_digits yy c hc, pad2_digits m c hc, pad2_digits d c hc]
  exact extractType_skip_digits _ (by simp [pad2]) hds t _ _ ht
    (dig_isDigit (Nat.mod_lt _ (by norm_num)))

theorem encode_extractStrike (root : List Char) (yy m d : Nat) (t : Char) (k frac : Nat)
    (hrootU : ∀ c ∈ root, isUpperAZ c = true) (ht : isUpperAZ t = true) :
    extractStrike (encodeOption root yy m d t k frac) = some (pad5 k) := by
  unfold encodeOption
  rw [extractStrike_append_root hrootU]
  have hassoc : pad2 yy ++ (pad2 m ++ (pad2 d ++ t :: (pad5 k ++ pad3 frac))) =
      (pad2 yy ++ pad2 m ++ pad2 d) ++ t :: (pad5 k ++ pad3 frac) := by
    simp [List.append_assoc]
  rw [hassoc]
  have hds : ∀ c ∈ pad2 yy ++ pad2 m ++ pad2 d, isDigit10 c = true := by
    intro c hc
    simp only [List.mem_append] at hc
    rcases hc with (hc | hc) | hc
    exacts [pad2_digits yy c hc, pad2_digits m c hc, pad2_digits d c hc]
  have hrun : digitRun (pad5 k ++ pad3 frac) = pad5 k ++ pad3 frac := by
    apply digitRun_all
    intro c hc
    rcases List.mem_append.mp hc with hc | hc
    exacts [pad5_digits k c hc, pad3_digits frac c hc]
  have hlen : (pad5 k ++ pad3 frac).length = 8 := by simp [pad5, pad3]
  rw [extractStrike_skip_digits _ (by simp [pad2]) hds t _ ht
    (by rw [hrun, hlen]; norm_num)]
  rw [hrun, hlen]
  norm_num
  show (pad5 k ++ pad3 frac).take 5 = pad5 k
  simp [pad5, pad3]

theorem encode_extractExpiration (root : List Char) (yy m d : Nat) (t : Char)
    (k frac : Nat) (hne : root ≠ []) (hrootU : ∀ c ∈ root, isUpperAZ c = true)
    (ht : isUpperAZ t = true) :
    extractExpiration (encodeOption root yy m d t k frac) =
      some (pad2 yy ++ (pad2 m ++ pad2 d)) := by
  unfold encodeOption
  rw [extractExpiration_append_root hne hrootU
    (by simp [pad2, startsWithDigit, dig_isDigit (Nat.mod_lt (yy / 10) (by norm_num))])]
  rw [digitRun_append_digits (pad2_digits yy), digitRun_append_digits (pad2_digits m),
    digitRun_append_digits (pad2_digits d), digitRun_cons_nondigit (upper_not_digit ht)]
  simp

/-- C8: the Symbol Decoder recovers exactly the type, strike and expiration
from a synthetically constructed vendor-format identifier; the three-digit
sub-dollar fraction is discarded from the strike. -/
theorem decode_round_trip (root : List Char) (yy m d : Nat) (t : Char) (k frac : Nat)
    (hne : root ≠ []) (hrootU : ∀ c ∈ root, isUpperAZ c = true)
    (hyy : yy ≤ 99) (hm1 : 1 ≤ m) (hm2 : m ≤ 12) (hd1 : 1 ≤ d)
    (hd2 : d ≤ daysInMonth (pivotYear yy) m)
    (ht : t = 'C' ∨ t = 'P') (hk : k < 100000) (hfrac : frac < 1000) :
    decodeType (encodeOption root yy m d t k frac) = some t ∧
    decodeStrike (encodeOption root yy m d t k frac) = some k ∧
    decodeExpiration (encodeOption root yy m d t k frac) =
      some (dayNumber (pivotYear yy) m d) := by
  have htU : isUpperAZ t = true := by rcases ht with rfl | rfl <;> decide
  refine ⟨?_, ?_, ?_⟩
  · unfold decodeType
    exact encode_extractType root yy m d t k frac hrootU htU
  · unfold decodeStrike
    rw [encode_extractStrike root yy m d t k frac hrootU htU]
    simp [natOfDigits_pad5 hk]
  · unfold decodeExpiration
    rw [encode_extractExpiration root yy m d t k frac hne hrootU htU]
    show toDatetime (pad2 yy ++ (pad2 m ++ pad2 d)) = _
    unfold toDatetime
    rw [parseYMD_pads yy m d hyy hm1 hm2 hd1 hd2]
    rfl

/-- Witness for `decode_round_trip`: the identifier SPY240119C00100000 decodes
to a Call, strike 100, expiring 2024-01-19. -/
theorem decode_round_trip_witness :
    decodeType (encodeOption ['S', 'P', 'Y'] 24 1 19 'C' 100 0) = some 'C' ∧
    decodeStrike (encodeOption ['S', 'P', 'Y'] 24 1 19 'C' 100 0) = some 100 ∧
    decodeExpiration (encodeOption ['S', 'P', 'Y'] 24 1 19 'C' 100 0) =
      some (dayNumber (pivotYear 24) 1 19) :=
  decode_round_trip ['S', 'P', 'Y'] 24 1 19 'C' 100 0 (by simp)
    (by intro c hc; fin_cases hc <;> decide) (by norm_num) (by norm_num) (by norm_num)
    (by norm_num) (by decide) (Or.inl rfl) (by norm_num) (by norm_num)

/-! ## Surface grid lemmas (C4, C10) -/

theorem cellValue_of_mem {g : List ((List Char × Nat) × ℚ)}
    (hnd : (g.map Prod.fst).Nodup) {e : List Char} {s : Nat} {v : ℚ}
    (hm : ((e, s), v) ∈ g) : cellValue g e s = v := by
  unfold cellValue
  cases hf : g.find? (fun p => decide (p.1 = (e, s))) with
  | none =>
    have := List.find?_eq_none.mp hf _ hm
    simp at this
  | some q =>
    have hq1 : q.1 = (e, s) := by simpa using List.find?_some hf
    have hqm : q ∈ g := List.mem_of_find?_eq_some hf
    have : q = ((e, s), v) :=
      List.inj_on_of_nodup_map hnd hqm hm (by rw [hq1])
    rw [this]

theorem cellValue_of_not_mem {g : List ((List Char × Nat) × ℚ)} {e : List Char}
    {s : Nat} (h : (e, s) ∉ g.map Prod.fst) : cellValue g e s = 0 := by
  unfold cellValue
  rw [List.find?_eq_none.mpr ?_]
  intro p hp
  simp only [decide_eq_true_eq]
  intro he
  exact h (he ▸ List.mem_map_of_mem Prod.fst hp)

theorem sortAsc_length {α : Type} [LinearOrder α] (l : List α) :
    (sortAsc l).length = l.length :=
  (List.perm_insertionSort _ l).length_eq

theorem sortDesc_length {α : Type} [LinearOrder α] (l : List α) :
    (sortDesc l).length = l.length :=
  (List.perm_insertionSort _ l).length_eq

theorem sortDesc_eq_reverse_sortAsc {α : Type} [LinearOrder α] (l : List α) :
    sortDesc l = (sortAsc l).reverse := by
  haveI : IsTotal α (fun a b : α => a ≥ b) := ⟨fun a b => le_total b a⟩
  haveI : IsTrans α (fun a b : α => a ≥ b) := ⟨fun a b c h1 h2 => le_trans h2 h1⟩
  haveI : IsAntisymm α (fun a b : α => a ≥ b) := ⟨fun a b h1 h2 => le_antisymm h2 h1⟩
  haveI : IsTotal α (fun a b : α => b ≥ a) := ⟨fun a b => le_total a b⟩
  haveI : IsTrans α (fun a b : α => b ≥ a) := ⟨fun a b c h1 h2 => le_trans h1 h2⟩
  have hperm : List.Perm (sortDesc l) (sortAsc l).reverse :=
    (List.perm_insertionSort _ l).trans
      ((List.reverse_perm (sortAsc l)).trans (List.perm_insertionSort _ l)).symm
  have hs1 : List.Sorted (· ≥ ·) (sortDesc l) := List.sorted_insertionSort _ l
  have hs2 : List.Sorted (· ≥ ·) (sortAsc l).reverse :=
    List.pairwise_reverse.mpr (List.sorted_insertionSort _ l)
  exact List.eq_of_perm_of_sorted hperm hs1 hs2

/-- C10: the surface's x-axis label vector (`x_unique`, the unique formatted
expirations sorted descending) is the exact reverse of the pivot's column
order (the same strings sorted ascending): the label at position `j`
corresponds to grid column `n - 1 - j`. -/
theorem surface_axis_labels_reversed (g : List ((List Char × Nat) × ℚ)) :
    x_unique g = (cols_asc g).reverse ∧
    ∀ j : Nat, j < (cols_asc g).length →
      (x_unique g).getD j [] = (cols_asc g).getD ((cols_asc g).length - 1 - j) [] := by
  have h1 : x_unique g = (cols_asc g).reverse := by
    unfold x_unique cols_asc
    exact sortDesc_eq_reverse_sortAsc _
  refine ⟨h1, fun j hj => ?_⟩
  rw [h1, List.getD_eq_getElem _ _ (by simpa using hj), List.getElem_reverse,
    List.getD_eq_getElem _ _ (by omega)]

/-- Witness for `surface_axis_labels_reversed` on a two-expiration view:
label 0 is grid column 1. -/
theorem surface_axis_labels_reversed_witness :
    (x_unique [((['A'], 100), 3), ((['B'], 105), 7)]).getD 0 [] =
      (cols_asc [((['A'], 100), 3), ((['B'], 105), 7)]).getD
        ((cols_asc [((['A'], 100), 3), ((['B'], 105), 7)]).length - 1 - 0) [] :=
  (surface_axis_labels_reversed [((['A'], 100), 3), ((['B'], 105), 7)]).2 0 (by decide)

/-- C4: the grid has one row per unique strike and one column per unique
expiration; a cell whose (expiration, strike) pair appears in the view holds
that pair's aggregate value, and a cell whose pair does not appear holds
exactly 0. -/
theorem surface_grid_zero_fill (g : List ((List Char × Nat) × ℚ))
    (hnd : (g.map Prod.fst).Nodup) :
    (pivot_z g).length = (g.map (fun p => p.1.2)).dedup.length ∧
    (∀ row ∈ pivot_z g, row.length = (g.map (fun p => p.1.1)).dedup.length) ∧
    (∀ i j : Nat, i < (y_unique g).length → j < (cols_asc g).length →
      (∀ v : ℚ, (((cols_asc g).getD j [], (y_unique g).getD i 0), v) ∈ g →
        ((pivot_z g).getD i []).getD j 0 = v) ∧
      ((((cols_asc g).getD j [], (y_unique g).getD i 0) ∉ g.map Prod.fst →
        ((pivot_z g).getD i []).getD j 0 = 0))) := by
  refine ⟨?_, ?_, ?_⟩
  · simp only [pivot_z, List.length_map]
    exact sortAsc_length _
  · intro row hrow
    rcases List.mem_map.mp hrow with ⟨s, _, rfl⟩
    simp only [List.length_map]
    exact sortAsc_length _
  · intro i j hi hj
    have hrow : (pivot_z g).getD i [] =
        (cols_asc g).map (fun e => cellValue g e ((y_unique g).getD i 0)) := by
      simp only [pivot_z]
      rw [List.getD_eq_getElem _ _ (by simpa using hi), List.getElem_map,
        List.getD_eq_getElem _ _ hi]
    have hcell : ((pivot_z g).getD i []).getD j 0 =
        cellValue g ((cols_asc g).getD j []) ((y_unique g).getD i 0) := by
      rw [hrow, List.getD_eq_getElem _ _ (by simpa using hj), List.getElem_map,
        List.getD_eq_getElem _ _ hj]
    constructor
    · intro v hv
      rw [hcell]
      exact cellValue_of_mem hnd hv
    · intro hnm
      rw [hcell]
      exact cellValue_of_not_mem hnm

/-- Witness for `surface_grid_zero_fill` on a concrete 2x2-capable view: the
observed cell holds its value and the unobserved cell holds 0. -/
theorem surface_grid_zero_fill_witness :
    ((pivot_z [((['A'], 100), 3), ((['B'], 105), 7)]).getD 0 []).getD 0 0 = 3 ∧
    ((pivot_z [((['A'], 100), 3), ((['B'], 105), 7)]).getD 1 []).getD 0 0 = 0 :=
  ⟨((surface_grid_zero_fill [((['A'], 100), 3), ((['B'], 105), 7)] (by decide)).2.2 0 0
      (by decide) (by decide)).1 3 (by decide),
    ((surface_grid_zero_fill [((['A'], 100), 3), ((['B'], 105), 7)] (by decide)).2.2 1 0
      (by decide) (by decide)).2 (by decide)⟩
